import Mathlib

/-
  Verification of the OM1 configuration-schema generator
  (scripts/generate_schema.py) against its specification.

  The generator statically analyses Python source files through their
  syntax trees.  We shallowly embed the fragment of the Python AST the
  generator inspects, together with each extraction routine, as
  executable Lean definitions, and prove the specified properties.

  Modelling notes (per-file, from the source):
  * A parsed file is `List Stmt` (the tree's top-level body); a failed
    parse is an `Except.error` carrying the exception text.
  * Python `ast.Constant` payloads are modelled by `Const`; float
    literals carry their textual form (the generator never computes
    with them, it only classifies and forwards them).
  * Function parameter lists are modelled as the list of positional
    parameter names (`node.args.args`), which is all the generator reads.
  * `ast.walk` is breadth-first; `walkN` implements that queue with a
    fuel argument amply bounded by `sizeOf`, so that it both terminates
    structurally and evaluates inside the kernel.
  * `ast.get_docstring`'s indentation clean-up (`inspect.cleandoc`) is
    not modelled; descriptions carry the raw docstring constant.
  * Logging is modelled by the list of messages the error branches emit.
-/

set_option maxRecDepth 20000

namespace OM1

/-- Python literal constants as stored in `ast.Constant.value`.
`noneV` doubles as Python `None`, which the generator also uses as the
"no default found" marker. -/
inductive Const where
  | noneV
  | boolV (b : Bool)
  | intV (n : Int)
  | floatV (text : String)
  | strV (s : String)
  | bytesV (s : String)
deriving DecidableEq

/-- The expression fragment of the Python AST that the generator
inspects: calls, names, attribute accesses, constants, subscripts.
Every other expression or statement shape that can occur inside a
constructor body is `other`, keeping only its child nodes (which is all
`ast.walk` uses). -/
inductive Ast where
  | call (fn : Ast) (args : List Ast)
  | name (id : String)
  | attrRef (value : Ast) (attr : String)
  | constant (c : Const)
  | subscript (value : Ast) (slice : Ast)
  | other (children : List Ast)

/-- The statement shapes the generator distinguishes when it iterates a
module or class body: `FunctionDef`, `AsyncFunctionDef`, `ClassDef`,
`AnnAssign`, plain expression statements (docstrings), anything else. -/
inductive Stmt where
  | functionDef (name : String) (args : List String) (body : List Ast)
  | asyncFunctionDef (name : String) (args : List String) (body : List Ast)
  | classDefStmt (name : String) (bases : List Ast) (body : List Stmt)
  | annAssign (target : Ast) (annot : Ast) (value : Option Ast)
  | exprStmt (e : Ast)
  | otherStmt

/-- Child nodes of an expression, in field order, as
`ast.iter_child_nodes` yields them. -/
def Ast.children : Ast → List Ast
  | .call fn args => fn :: args
  | .name _ => []
  | .attrRef v _ => [v]
  | .constant _ => []
  | .subscript v sl => [v, sl]
  | .other cs => cs

mutual

/-- Number of nodes of an expression tree. -/
def astSize : Ast → Nat
  | .call fn args => 1 + astSize fn + astSizeList args
  | .name _ => 1
  | .attrRef v _ => 1 + astSize v
  | .constant _ => 1
  | .subscript v sl => 1 + astSize v + astSize sl
  | .other cs => 1 + astSizeList cs

/-- Total number of nodes of a forest. -/
def astSizeList : List Ast → Nat
  | [] => 0
  | a :: rest => astSize a + astSizeList rest

end

/-- Breadth-first traversal queue of `ast.walk`, with explicit fuel.
Each step pops one node and enqueues its children, so the number of
steps equals the number of nodes in the forest. -/
def walkN : Nat → List Ast → List Ast
  | 0, _ => []
  | _ + 1, [] => []
  | n + 1, a :: todo => a :: walkN n (todo ++ a.children)

/-- `ast.walk` in breadth-first order over a forest of nodes: the fuel
`astSizeList l` is exactly the number of nodes, hence sufficient. -/
def walkList (l : List Ast) : List Ast := walkN (astSizeList l) l

/-- Python `str.replace("_", " ")`, the single-character case used by
the generator. -/
def replaceUnderscores (s : String) : String :=
  String.mk (s.data.map fun ch => if ch = '_' then ' ' else ch)

/-- One step of Python `str.title()` over ASCII identifiers: a letter
following a non-letter is uppercased, a letter following a letter is
lowercased. -/
def pyTitleAux : Bool → List Char → List Char
  | _, [] => []
  | prevCased, ch :: rest =>
    if ch.isAlpha then
      (if prevCased then ch.toLower else ch.toUpper) :: pyTitleAux true rest
    else
      ch :: pyTitleAux false rest

/-- Python `str.title()` restricted to ASCII text. -/
def pyTitle (s : String) : String := String.mk (pyTitleAux false s.data)

/-- The label derivation `name.replace("_", " ").title()`. -/
def pyLabel (nm : String) : String := pyTitle (replaceUnderscores nm)

/-- One extracted field descriptor.  `defaultValue = none` models the
absence of the `"defaultValue"` key in the emitted dictionary. -/
structure Field where
  name : String
  type : String
  label : String
  required : Bool
  defaultValue : Option Const
deriving DecidableEq

/-- The test on `node.args[0]`: an attribute access whose attribute is
literally `config`, or a bare name `config`. -/
def isConfigRef : Ast → Bool
  | .attrRef _ attr => attr == "config"
  | .name id => id == "config"
  | _ => false

/-- `default = node.args[2].value if len(node.args) > 2 and
isinstance(node.args[2], ast.Constant) else None`.  A literal `None`
third argument and an absent or non-literal third argument alike yield
`noneV`, exactly as the Python `None` they all become. -/
def defaultArg (args : List Ast) : Const :=
  match args.drop 2 with
  | .constant c :: _ => c
  | _ => .noneV

/-- The type classification of a default value: Python checks
`isinstance(default, bool)` first, then `isinstance(default, (int,
float))`, else `"string"` (`None` included). -/
def typeOfDefault : Const → String
  | .boolV _ => "boolean"
  | .intV _ => "number"
  | .floatV _ => "number"
  | _ => "string"

/-- The field dictionary built for one accepted `getattr` call. -/
def mkGetattrField (nm : String) (dflt : Const) : Field :=
  ⟨nm, typeOfDefault dflt, pyLabel nm, dflt != Const.noneV,
    if dflt != Const.noneV then some dflt else none⟩

/-- The per-node filter of `_parse_getattr`'s walk: accept a call whose
callee is the bare name `getattr`, with at least two positional
arguments, whose first argument refers to `config` and whose second is
a string literal; build the field from the optional literal default. -/
def matchGetattr (node : Ast) : Option Field :=
  match node with
  | .call (.name fn) args =>
    if fn != "getattr" then none
    else
      match args with
      | a0 :: a1 :: _ =>
        if !isConfigRef a0 then none
        else
          match a1 with
          | .constant (.strV nm) => some (mkGetattrField nm (defaultArg args))
          | _ => none
      | _ => none
  | _ => none

/-- Test for the constructor: `isinstance(n, ast.FunctionDef) and
n.name == "__init__"` (an async `__init__` does not match). -/
def isInitDef : Stmt → Bool
  | .functionDef nm _ _ => nm == "__init__"
  | _ => false

/-- `_parse_getattr`: locate `__init__` in the class body; if absent
return no fields, else walk it breadth-first and collect a field per
accepted `getattr` call.  (The walk starts at the `FunctionDef` node in
Python; that node and its parameter nodes are not calls, so walking the
body forest is equivalent.) -/
def parseGetattr (body : List Stmt) : List Field :=
  match body.find? isInitDef with
  | some (.functionDef _ _ fnBody) => (walkList fnBody).filterMap matchGetattr
  | _ => []

/-- `_extends`: some declared base is a bare name, or a subscripted
name, equal to one of the recognized marker names. -/
def extendsAny (bases : List Ast) (baseClasses : List String) : Bool :=
  bases.any fun b =>
    match b with
    | .name id => baseClasses.contains id
    | .subscript (.name id) _ => baseClasses.contains id
    | _ => false

/-- Python substring containment `p in s` on character lists: `p` is a
prefix of `l`, or contained in `l`'s tail. -/
def subElem (p l : List Char) : Bool :=
  p.isPrefixOf l ||
    match l with
    | [] => false
    | _ :: tl => subElem p tl

/-- `"Connector" in id`. -/
def hasConnectorSub (id : String) : Bool :=
  subElem "Connector".data id.data

/-- `_extends_connector`: some declared base is a bare name, or a
subscripted name, whose identifier contains `"Connector"`. -/
def extendsConnector (bases : List Ast) : Bool :=
  bases.any fun b =>
    match b with
    | .name id => hasConnectorSub id
    | .subscript (.name id) _ => hasConnectorSub id
    | _ => false

/-- `ast.get_docstring`: the docstring constant when the first body
statement is a string-literal expression (indentation clean-up is not
modelled). -/
def getDocstring : List Stmt → Option String
  | .exprStmt (.constant (.strV s)) :: _ => some s
  | _ => none

/-- `ast.get_docstring(node) or ""`. -/
def docstringOr (body : List Stmt) : String :=
  match getDocstring body with
  | some s => s
  | none => ""

/-- `_annotation_to_type`: `None` or an unrecognized shape falls to
`"string"`; a subscript classifies by its slice when the slice is a
bare primitive name and otherwise yields `"object"`; a bare name
classifies by the primitive table and otherwise falls through to the
final `"string"`. -/
def annotToType : Option Ast → String
  | none => "string"
  | some a =>
    match a with
    | .subscript _ sl =>
      (match sl with
       | .name t =>
         if t = "str" ∨ t = "string" then "string"
         else if t = "int" ∨ t = "float" then "number"
         else if t = "bool" then "boolean"
         else "object"
       | _ => "object")
    | .name t =>
      if t = "str" ∨ t = "string" then "string"
      else if t = "int" ∨ t = "float" then "number"
      else if t = "bool" then "boolean"
      else "string"
    | _ => "string"

/-- `_get_pydantic_default`: a literal keeps its value, a call becomes
the sentinel string `"__SKIP__"`, anything else becomes `None`. -/
def getPydanticDefault : Ast → Const
  | .constant c => c
  | .call _ _ => .strV "__SKIP__"
  | _ => .noneV

/-- Python `name.startswith("_")`. -/
def startsWithUnderscore (s : String) : Bool :=
  s.data.take 1 == ['_']

/-- The per-attribute step of `_parse_pydantic_class`: keep annotated
assignments to a bare name that is not private and not
`model_config`; compute the default (`None` when the attribute has no
value); drop the attribute when the default equals the sentinel
`"__SKIP__"`; otherwise build the field dictionary. -/
def pydField (item : Stmt) : Option Field :=
  match item with
  | .annAssign (.name nm) annot val =>
    if startsWithUnderscore nm || nm == "model_config" then none
    else
      let dflt : Const :=
        match val with
        | some v => getPydanticDefault v
        | none => .noneV
      if dflt == Const.strV "__SKIP__" then none
      else
        some ⟨nm, annotToType (some annot), pyLabel nm, dflt != Const.noneV,
          if dflt != Const.noneV then some dflt else none⟩
  | _ => none

/-- The body loop of `_parse_pydantic_class` over one class body. -/
def parsePydanticBody (body : List Stmt) : List Field :=
  body.filterMap pydField

/-- Does this statement declare a class with the given name? -/
def isClassNamed (className : String) (s : Stmt) : Bool :=
  match s with
  | .classDefStmt nm _ _ => nm == className
  | _ => false

/-- `_parse_pydantic_class`: no fields when the file does not exist or
fails to parse (the error is logged and the fields collected so far —
none — are returned); otherwise the fields of the first class with the
given name, and no fields when there is none. -/
def parsePydanticClass (className : String)
    (file : Option (Except String (List Stmt))) : List Field :=
  match file with
  | none => []
  | some (.error _) => []
  | some (.ok tree) =>
    match tree.find? (isClassNamed className) with
    | some (.classDefStmt _ _ body) => parsePydanticBody body
    | _ => []

/-- Insertion into the ordered dictionary `fields[f.name] = f` of
`scan_llms`: replacing an existing key keeps its position, a new key
appends. -/
def upsert (m : List Field) (f : Field) : List Field :=
  if m.any fun g => g.name == f.name then
    m.map fun g => if g.name == f.name then f else g
  else m ++ [f]

/-- The name-keyed merge of `scan_llms`: base fields populate the
dictionary first, extracted fields then override by name. -/
def mergeFields (base extracted : List Field) : List Field :=
  (base ++ extracted).foldl upsert []

/-- The names of a field list, in order. -/
def fieldNames (l : List Field) : List String := l.map Field.name

/-- One source file as the scanners see it: its base name and the
outcome of parsing it (`Except.error` carries the exception text). -/
structure PyFile where
  name : String
  parse : Except String (List Stmt)

/-- Python `s.endswith(suf)`. -/
def strEndsWith (s suf : String) : Bool :=
  suf.data.isSuffixOf s.data

/-- Python `s[:-3]`. -/
def stripLast3 (s : String) : String :=
  String.mk (s.data.take (s.data.length - 3))

/-- `_py_files`: files ending in `.py`, excluding `__init__.py`. -/
def pyFiles (files : List PyFile) : List PyFile :=
  files.filter fun f => strEndsWith f.name ".py" && f.name != "__init__.py"

/-- One emitted component schema.  `actionName`/`connectorName` model
the two extra keys only action components carry. -/
structure Component where
  type : String
  category : String
  fields : List Field
  description : String
  actionName : Option String
  connectorName : Option String
deriving DecidableEq

/-- A plugins directory: whether it exists, and its file listing. -/
structure PluginsDir where
  dirExists : Bool
  files : List PyFile

/-- `_scan_plugins`: empty when the directory does not exist; otherwise
for each parsed `.py` file, one component per top-level class extending
one of the marker names.  A file whose parse fails contributes
nothing. -/
def scanPlugins (fs : PluginsDir) (baseClasses : List String)
    (category : String) : List Component :=
  if !fs.dirExists then []
  else
    (pyFiles fs.files).flatMap fun f =>
      match f.parse with
      | .error _ => []
      | .ok tree =>
        tree.filterMap fun node =>
          match node with
          | .classDefStmt nm bases body =>
            if extendsAny bases baseClasses then
              some ⟨nm, category, parseGetattr body, docstringOr body,
                none, none⟩
            else none
          | _ => none

/-- `scan_inputs`. -/
def scanInputs (fs : PluginsDir) : List Component :=
  scanPlugins fs ["FuserInput", "Sensor"] "input"

/-- `scan_backgrounds`. -/
def scanBackgrounds (fs : PluginsDir) : List Component :=
  scanPlugins fs ["Background"] "background"

/-- The messages the `except` branch of a per-file loop logs, one per
`.py` file whose parse failed.  (The Python message interpolates the
full path; the file's identity is its name here.) -/
def parseErrorLog (files : List PyFile) : List String :=
  (pyFiles files).filterMap fun f =>
    match f.parse with
    | .error e => some ("Error parsing " ++ f.name ++ ": " ++ e)
    | .ok _ => none

/-- The error log of `_scan_plugins`. -/
def scanPluginsErrors (fs : PluginsDir) : List String :=
  if !fs.dirExists then [] else parseErrorLog fs.files

/-- The model-backend scanner's file-system view: the plugins
directory, plus the `llm/__init__.py` file holding `LLMConfig`
(`none` when that file does not exist). -/
structure LlmFS where
  dirExists : Bool
  configFile : Option (Except String (List Stmt))
  files : List PyFile

/-- `scan_llms`: empty when the plugins directory does not exist; else
the `LLMConfig` base fields are extracted once, and each parsed plugin file
contributes one component per top-level class extending `LLM`, its
fields the name-keyed merge of base and constructor-extracted fields. -/
def scanLlms (fs : LlmFS) : List Component :=
  if !fs.dirExists then []
  else
    let base := parsePydanticClass "LLMConfig" fs.configFile
    (pyFiles fs.files).flatMap fun f =>
      match f.parse with
      | .error _ => []
      | .ok tree =>
        tree.filterMap fun node =>
          match node with
          | .classDefStmt nm bases body =>
            if extendsAny bases ["LLM"] then
              some ⟨nm, "llm", mergeFields base (parseGetattr body),
                docstringOr body, none, none⟩
            else none
          | _ => none

/-- The error log of `scan_llms`'s per-file loop. -/
def scanLlmsErrors (fs : LlmFS) : List String :=
  if !fs.dirExists then [] else parseErrorLog fs.files

/-- One entry of the actions directory listing: its name, whether it is
a directory, whether it has a `connector` subdirectory, and that
subdirectory's files. -/
structure ActionEntry where
  name : String
  isDir : Bool
  connectorDirExists : Bool
  connectorFiles : List PyFile

/-- The actions directory. -/
structure ActionsFS where
  dirExists : Bool
  entries : List ActionEntry

/-- `scan_actions`: empty when the actions directory does not exist;
entries that are not directories, are `__pycache__`, or lack a
`connector` subdirectory are skipped; each parsed connector `.py` file
contributes one component per top-level class extending a
`Connector`-named base, typed by the directory/file composition rule. -/
def scanActions (fs : ActionsFS) : List Component :=
  if !fs.dirExists then []
  else
    fs.entries.flatMap fun entry =>
      if !entry.isDir || entry.name == "__pycache__" then []
      else if !entry.connectorDirExists then []
      else
        (pyFiles entry.connectorFiles).flatMap fun f =>
          match f.parse with
          | .error _ => []
          | .ok tree =>
            tree.filterMap fun node =>
              match node with
              | .classDefStmt _ bases body =>
                if extendsConnector bases then
                  some ⟨(if stripLast3 f.name == "default" then entry.name
                         else entry.name ++ "_" ++ stripLast3 f.name),
                    "action", parseGetattr body, docstringOr body,
                    some entry.name, some (stripLast3 f.name)⟩
                else none
              | _ => none

/-- The hooks directory. -/
structure HooksFS where
  dirExists : Bool
  files : List PyFile

/-- One recorded hook function: its name and positional parameter
names. -/
structure HookFn where
  name : String
  args : List String
deriving DecidableEq

/-- One recorded hook module. -/
structure HookModule where
  module : String
  functions : List HookFn
deriving DecidableEq

/-- The function loop of `scan_hooks`: the top-level statements that
are asynchronous function definitions, each recorded with its name and
positional parameter names. -/
def moduleFunctions (tree : List Stmt) : List HookFn :=
  tree.filterMap fun s =>
    match s with
    | .asyncFunctionDef nm args _ => some ⟨nm, args⟩
    | _ => none

/-- The per-file step of `scan_hooks`: a failed parse contributes
nothing; a parsed module contributes an entry exactly when it has at
least one top-level asynchronous function. -/
def hookEntry (f : PyFile) : Option HookModule :=
  match f.parse with
  | .error _ => none
  | .ok tree =>
    if (moduleFunctions tree).isEmpty then none
    else some ⟨stripLast3 f.name, moduleFunctions tree⟩

/-- `scan_hooks`: empty when the hooks directory does not exist, else
one entry per qualifying `.py` file. -/
def scanHooks (fs : HooksFS) : List HookModule :=
  if !fs.dirExists then [] else (pyFiles fs.files).filterMap hookEntry

/-! ### Concrete fixtures used by witnesses and counterexamples -/

/-- An actions directory holding one action `speak` with connector
files `default.py` and `ros2.py` (the spec's worked example). -/
def speakFS : ActionsFS :=
  ⟨true, [⟨"speak", true, true,
    [⟨"default.py", .ok [.classDefStmt "SpeakDefault" [.name "ActionConnector"] []]⟩,
     ⟨"ros2.py", .ok [.classDefStmt "SpeakRos2" [.name "ActionConnector"] []]⟩]⟩]⟩

/-- The action component produced for `speak/connector/ros2.py`. -/
def speakRos2Component : Component :=
  ⟨"speak_ros2", "action", [], "", some "speak", some "ros2"⟩

/-- A hook module with one asynchronous function `on_start(ctx)` and
one synchronous function `helper()` (the spec's worked example). -/
def hooksModuleEx : List Stmt :=
  [.asyncFunctionDef "on_start" ["ctx"] [], .functionDef "helper" [] []]

/-- A constructor body reading the same key `"x"` twice. -/
def dupInit : List Stmt :=
  [.functionDef "__init__" ["self", "config"]
    [.other [.call (.name "getattr")
      [.name "config", .constant (.strV "x"), .constant (.intV 1)]],
     .other [.call (.name "getattr")
      [.name "config", .constant (.strV "x"), .constant (.intV 2)]]]]

/-- Base fields for the merge witness. -/
def mergeBaseEx : List Field :=
  [⟨"a", "string", "A", false, none⟩, ⟨"b", "string", "B", false, none⟩]

/-- Extracted fields for the merge witness: they override `"b"` and
add `"c"`. -/
def mergeExtractedEx : List Field :=
  [⟨"b", "number", "B", true, some (.intV 1)⟩, ⟨"c", "string", "C", false, none⟩]

/-! ### Helper lemmas -/

/-- An annotated attribute whose default is a call expression is
rejected by the per-attribute step. -/
theorem pydField_callDefault (target annot fn : Ast) (args : List Ast) :
    pydField (.annAssign target annot (some (.call fn args))) = none := by
  cases target <;> simp [pydField, getPydanticDefault]

/-- An annotated attribute whose default is the literal string
`"__SKIP__"` is rejected by the per-attribute step. -/
theorem pydField_skipLiteral (target annot : Ast) :
    pydField (.annAssign target annot
      (some (.constant (.strV "__SKIP__")))) = none := by
  cases target <;> simp [pydField, getPydanticDefault]

/-- A rejected attribute contributes nothing, wherever it sits in the
class body. -/
theorem parsePydanticBody_middle (pre post : List Stmt) (item : Stmt)
    (h : pydField item = none) :
    parsePydanticBody (pre ++ item :: post) = parsePydanticBody (pre ++ post) := by
  simp [parsePydanticBody, List.filterMap_append, List.filterMap_cons, h]

/-- The executable substring test agrees with list-infix containment. -/
theorem subElem_iff (p l : List Char) : subElem p l = true ↔ p <:+: l := by
  induction l with
  | nil =>
    cases p <;> simp [subElem, List.isPrefixOf]
  | cons b tl ih =>
    rw [subElem, Bool.or_eq_true, List.isPrefixOf_iff_prefix, ih,
      List.infix_cons_iff]

/-! ### C4 — call-expression defaults are dropped -/

/-- C4: for every annotated attribute of a declarative class whose
default value expression is a call expression, the Declarative Field
Extractor produces no descriptor for that attribute: the result is the
same as if the attribute were absent from the class body. -/
theorem pydantic_call_default_dropped (pre post : List Stmt)
    (target annot fn : Ast) (args : List Ast) :
    parsePydanticBody (pre ++ .annAssign target annot (some (.call fn args)) :: post)
      = parsePydanticBody (pre ++ post) :=
  parsePydanticBody_middle pre post _ (pydField_callDefault target annot fn args)

/-! ### C10 — the `"__SKIP__"` literal is dropped like a call default -/

/-- C10: an annotated attribute whose default is the literal string
`"__SKIP__"` is dropped from the field list exactly as if its default
were a call expression: the two bodies extract to the same fields, and
both equal the extraction with the attribute absent. -/
theorem skip_sentinel_dropped (pre post : List Stmt) (target annot fn : Ast)
    (args : List Ast) :
    parsePydanticBody
        (pre ++ .annAssign target annot (some (.constant (.strV "__SKIP__"))) :: post)
      = parsePydanticBody (pre ++ .annAssign target annot (some (.call fn args)) :: post)
    ∧ parsePydanticBody
        (pre ++ .annAssign target annot (some (.constant (.strV "__SKIP__"))) :: post)
      = parsePydanticBody (pre ++ post) := by
  constructor
  · rw [parsePydanticBody_middle pre post _ (pydField_skipLiteral target annot),
      parsePydanticBody_middle pre post _ (pydField_callDefault target annot fn args)]
  · exact parsePydanticBody_middle pre post _ (pydField_skipLiteral target annot)

/-! ### C7 — a missing category directory yields an empty list -/

/-- C7: for every category (inputs, llm, background, action, hook),
when the category's directory does not exist on disk the scan returns
the empty list rather than signaling an error. -/
theorem missing_dir_empty (files1 files2 files3 : List PyFile)
    (cf : Option (Except String (List Stmt))) (entries : List ActionEntry)
    (bs : List String) (cat : String) :
    scanPlugins ⟨false, files1⟩ bs cat = []
    ∧ scanInputs ⟨false, files1⟩ = []
    ∧ scanBackgrounds ⟨false, files1⟩ = []
    ∧ scanLlms ⟨false, cf, files2⟩ = []
    ∧ scanActions ⟨false, entries⟩ = []
    ∧ scanHooks ⟨false, files3⟩ = [] :=
  ⟨rfl, rfl, rfl, rfl, rfl, rfl⟩

/-! ### C9 — connector bases match by substring containment -/

/-- C9: the action-connector matcher returns true iff some declared
base is a plain name, or a subscripted name, whose identifier contains
the substring `"Connector"` — containment, not equality with a fixed
marker name. -/
theorem connector_substring_match (bases : List Ast) :
    extendsConnector bases = true ↔
      ∃ b ∈ bases, ∃ id, "Connector".data <:+: id.data ∧
        (b = Ast.name id ∨ ∃ sl, b = Ast.subscript (Ast.name id) sl) := by
  rw [extendsConnector, List.any_eq_true]
  constructor
  · rintro ⟨b, hb, hmatch⟩
    refine ⟨b, hb, ?_⟩
    cases b with
    | name id =>
      exact ⟨id, (subElem_iff _ _).mp (by simpa [hasConnectorSub] using hmatch),
        Or.inl rfl⟩
    | subscript v sl =>
      cases v with
      | name id =>
        exact ⟨id, (subElem_iff _ _).mp (by simpa [hasConnectorSub] using hmatch),
          Or.inr ⟨sl, rfl⟩⟩
      | call fn args => simp at hmatch
      | attrRef v' attr => simp at hmatch
      | constant c => simp at hmatch
      | subscript v' sl' => simp at hmatch
      | other cs => simp at hmatch
    | call fn args => simp at hmatch
    | attrRef v attr => simp at hmatch
    | constant c => simp at hmatch
    | other cs => simp at hmatch
  · rintro ⟨b, hb, id, hinf, rfl | ⟨sl, rfl⟩⟩ <;>
      exact ⟨_, hb, by simp [hasConnectorSub, (subElem_iff _ _).mpr hinf]⟩

/-- Witness for C9 at a base whose name merely contains `"Connector"`. -/
theorem connector_substring_match_witness :
    extendsConnector [Ast.name "MyConnectorBase"] = true :=
  (connector_substring_match [Ast.name "MyConnectorBase"]).mpr
    ⟨Ast.name "MyConnectorBase", by simp, "MyConnectorBase", by decide, Or.inl rfl⟩

/-! ### C2 — annotation-to-type inference -/

/-- C2 (amended): the inferred type is `"string"`/`"number"`/`"boolean"`
for the recognized primitive names, bare or as the slice of a
subscript; a subscript whose slice is not a recognized primitive name
maps to `"object"`; every other annotation — bare container names like
`Dict` and `List` included — falls through to `"string"`. -/
theorem annot_type_rules :
    (∀ t, t = "str" ∨ t = "string" → annotToType (some (Ast.name t)) = "string") ∧
    (∀ t, t = "int" ∨ t = "float" → annotToType (some (Ast.name t)) = "number") ∧
    annotToType (some (Ast.name "bool")) = "boolean" ∧
    (∀ t, t ∉ (["str", "string", "int", "float", "bool"] : List String) →
      annotToType (some (Ast.name t)) = "string") ∧
    (∀ v t, t = "str" ∨ t = "string" →
      annotToType (some (Ast.subscript v (Ast.name t))) = "string") ∧
    (∀ v t, t = "int" ∨ t = "float" →
      annotToType (some (Ast.subscript v (Ast.name t))) = "number") ∧
    (∀ v, annotToType (some (Ast.subscript v (Ast.name "bool"))) = "boolean") ∧
    (∀ v t, t ∉ (["str", "string", "int", "float", "bool"] : List String) →
      annotToType (some (Ast.subscript v (Ast.name t))) = "object") ∧
    (∀ v sl, (∀ t, sl ≠ Ast.name t) →
      annotToType (some (Ast.subscript v sl)) = "object") ∧
    (∀ a, (∀ t, a ≠ Ast.name t) → (∀ v sl, a ≠ Ast.subscript v sl) →
      annotToType (some a) = "string") ∧
    annotToType none = "string" := by
  refine ⟨?_, ?_, rfl, ?_, ?_, ?_, fun v => rfl, ?_, ?_, ?_, rfl⟩
  · rintro t (rfl | rfl) <;> rfl
  · rintro t (rfl | rfl) <;> rfl
  · intro t h
    simp only [List.mem_cons, List.mem_singleton, not_or] at h
    obtain ⟨h1, h2, h3, h4, h5⟩ := h
    simp [annotToType, h1, h2, h3, h4, h5]
  · rintro v t (rfl | rfl) <;> rfl
  · rintro v t (rfl | rfl) <;> rfl
  · intro v t h
    simp only [List.mem_cons, List.mem_singleton, not_or] at h
    obtain ⟨h1, h2, h3, h4, h5⟩ := h
    simp [annotToType, h1, h2, h3, h4, h5]
  · intro v sl h
    cases sl with
    | name t => exact absurd rfl (h t)
    | call fn args => rfl
    | attrRef v' a => rfl
    | constant c => rfl
    | subscript v' sl' => rfl
    | other cs => rfl
  · intro a h1 h2
    cases a with
    | name t => exact absurd rfl (h1 t)
    | subscript v sl => exact absurd rfl (h2 v sl)
    | call fn args => rfl
    | attrRef v' at' => rfl
    | constant c => rfl
    | other cs => rfl

/-- Witness for C2's catch-all clauses at the container annotations
`Dict` and `Dict[str, int]` (the latter's slice is a tuple node). -/
theorem annot_type_rules_witness :
    annotToType (some (Ast.name "Dict")) = "string" ∧
    annotToType (some (Ast.subscript (Ast.name "Dict")
      (Ast.other [Ast.name "str", Ast.name "int"]))) = "object" :=
  ⟨annot_type_rules.2.2.2.1 "Dict" (by decide),
   annot_type_rules.2.2.2.2.2.2.2.2.1 (Ast.name "Dict")
     (Ast.other [Ast.name "str", Ast.name "int"]) (fun t h => Ast.noConfusion h)⟩

/-- Counterexample to C2 as stated: a bare `Dict` annotation infers
`"string"`, and `List[int]` infers `"number"` — not `"object"` as the
claim demands for generic containers and their subscripted forms. -/
theorem annot_type_counterexample :
    annotToType (some (Ast.name "Dict")) ≠ "object" ∧
    annotToType (some (Ast.subscript (Ast.name "List") (Ast.name "int"))) ≠ "object" ∧
    annotToType (some (Ast.name "Dict")) = "string" ∧
    annotToType (some (Ast.subscript (Ast.name "List") (Ast.name "int"))) = "number" := by
  decide

/-! ### C3 — the field built from an accepted field-read idiom call -/

/-- C3 (amended): an accepted `getattr(config, "<nm>", ...)` call yields
a descriptor named by the key, labelled with the underscores-to-spaces
title-cased key, typed `"boolean"`/`"number"`/`"string"` by the literal
default's kind, whose `required` is true iff a literal third positional
argument with a value other than `None` is present; with no such
default the descriptor is not required, carries no `defaultValue`, and
is typed `"string"`. -/
theorem getattr_field_shape (a0 : Ast) (rest : List Ast) (nm : String) (fld : Field)
    (hcfg : isConfigRef a0 = true)
    (hm : matchGetattr (Ast.call (Ast.name "getattr")
      (a0 :: Ast.constant (Const.strV nm) :: rest)) = some fld) :
    fld.name = nm ∧
    fld.label = pyLabel nm ∧
    (fld.required = true ↔ ∃ c, rest.head? = some (Ast.constant c) ∧ c ≠ Const.noneV) ∧
    (fld.required = false → fld.defaultValue = none ∧ fld.type = "string") ∧
    (∀ c, rest.head? = some (Ast.constant c) → c ≠ Const.noneV →
      fld.defaultValue = some c ∧ fld.required = true ∧
      (∀ b, c = Const.boolV b → fld.type = "boolean") ∧
      (∀ n, c = Const.intV n → fld.type = "number") ∧
      (∀ s, c = Const.floatV s → fld.type = "number") ∧
      (∀ s, c = Const.strV s → fld.type = "string") ∧
      (∀ s, c = Const.bytesV s → fld.type = "string")) ∧
    (rest = [] → fld.required = false ∧ fld.defaultValue = none ∧ fld.type = "string") := by
  have hfld : fld = mkGetattrField nm
      (defaultArg (a0 :: Ast.constant (Const.strV nm) :: rest)) := by
    simp [matchGetattr, hcfg] at hm
    exact hm.symm
  subst hfld
  rcases rest with _ | ⟨r0, rtail⟩
  · simp [mkGetattrField, defaultArg, typeOfDefault]
  · cases r0 with
    | constant c => cases c <;> simp [mkGetattrField, defaultArg, typeOfDefault]
    | call fn args => simp [mkGetattrField, defaultArg, typeOfDefault]
    | name id => simp [mkGetattrField, defaultArg, typeOfDefault]
    | attrRef v a => simp [mkGetattrField, defaultArg, typeOfDefault]
    | subscript v sl => simp [mkGetattrField, defaultArg, typeOfDefault]
    | other cs => simp [mkGetattrField, defaultArg, typeOfDefault]

/-- Witness for C3 at the spec's example: key `"rate"`, literal default
`10` — a required `"number"` field labelled `"Rate"` with default 10. -/
theorem getattr_field_shape_witness :
    (⟨"rate", "number", "Rate", true, some (Const.intV 10)⟩ : Field).defaultValue
        = some (Const.intV 10) ∧
    (⟨"rate", "number", "Rate", true, some (Const.intV 10)⟩ : Field).required = true ∧
    (⟨"rate", "number", "Rate", true, some (Const.intV 10)⟩ : Field).type = "number" ∧
    (⟨"rate", "number", "Rate", true, some (Const.intV 10)⟩ : Field).label = "Rate" := by
  have h := getattr_field_shape (Ast.name "config") [Ast.constant (Const.intV 10)]
    "rate" ⟨"rate", "number", "Rate", true, some (Const.intV 10)⟩ (by decide) (by decide)
  have h10 := h.2.2.2.2.1 (Const.intV 10) rfl (by decide)
  exact ⟨h10.1, h10.2.1, h10.2.2.2.1 10 rfl, by decide⟩

/-- Counterexample to C3 as stated: the call
`getattr(config, "x", None)` has a literal third positional argument,
yet the resulting descriptor has `required = false` and no
`defaultValue` key. -/
theorem getattr_none_default_counterexample :
    matchGetattr (Ast.call (Ast.name "getattr")
      [Ast.name "config", Ast.constant (Const.strV "x"), Ast.constant Const.noneV])
      = some ⟨"x", "string", "X", false, none⟩ ∧
    (⟨"x", "string", "X", false, none⟩ : Field).required = false ∧
    (⟨"x", "string", "X", false, none⟩ : Field).defaultValue = none := by
  decide

/-! ### C6 — the hook scanner records exactly the top-level async functions -/

/-- C6: every top-level asynchronous function definition is recorded
with its name and positional parameter names; everything recorded comes
from such a definition (so synchronous and nested functions never are);
a parsed module contributes an entry iff it has at least one top-level
asynchronous function, and that entry carries the stripped module name
and exactly the recorded functions; a failed parse contributes
nothing. -/
theorem hooks_async_only (tree : List Stmt) (nm : String) :
    (∀ (fname : String) (args : List String) (body : List Ast),
      Stmt.asyncFunctionDef fname args body ∈ tree →
        (⟨fname, args⟩ : HookFn) ∈ moduleFunctions tree) ∧
    (∀ g ∈ moduleFunctions tree,
      ∃ body, Stmt.asyncFunctionDef g.name g.args body ∈ tree) ∧
    (hookEntry ⟨nm, .ok tree⟩ ≠ none ↔ moduleFunctions tree ≠ []) ∧
    (∀ m, hookEntry ⟨nm, .ok tree⟩ = some m →
      m.module = stripLast3 nm ∧ m.functions = moduleFunctions tree) ∧
    (∀ e, hookEntry ⟨nm, .error e⟩ = none) := by
  refine ⟨?_, ?_, ?_, ?_, fun e => rfl⟩
  · intro fname args body h
    exact List.mem_filterMap.mpr ⟨_, h, rfl⟩
  · intro g hg
    obtain ⟨s, hs, hsome⟩ := List.mem_filterMap.mp hg
    cases s with
    | asyncFunctionDef n a b =>
      obtain rfl : (⟨n, a⟩ : HookFn) = g := by injection hsome
      exact ⟨b, hs⟩
    | functionDef n a b => exact Option.noConfusion hsome
    | classDefStmt n bs b => exact Option.noConfusion hsome
    | annAssign t an v => exact Option.noConfusion hsome
    | exprStmt e => exact Option.noConfusion hsome
    | otherStmt => exact Option.noConfusion hsome
  · constructor
    · intro hne hempty
      exact hne (by simp [hookEntry, hempty])
    · intro hne
      simp [hookEntry, List.isEmpty_iff, hne]
  · intro m hm
    simp only [hookEntry] at hm
    split at hm
    · exact Option.noConfusion hm
    · injection hm with h
      rw [← h]
      exact ⟨rfl, rfl⟩

/-- Witness for C6 at the spec's example module: the async
`on_start(ctx)` is recorded and the module contributes an entry. -/
theorem hooks_async_only_witness :
    (⟨"on_start", ["ctx"]⟩ : HookFn) ∈ moduleFunctions hooksModuleEx ∧
    hookEntry ⟨"startup.py", .ok hooksModuleEx⟩ ≠ none :=
  ⟨(hooks_async_only hooksModuleEx "startup.py").1 "on_start" ["ctx"] []
     (List.Mem.head _),
   ((hooks_async_only hooksModuleEx "startup.py").2.2.1).mpr (by decide)⟩

/-! ### C5 — composite action type names -/

/-- C5: every component the action scanner emits comes from an entry
and a `.py` connector file of the file system, and its type name is the
directory name alone when the stripped connector name is `"default"`,
and `"<directory>_<connector>"` otherwise. -/
theorem action_type_name (fs : ActionsFS) (c : Component)
    (hc : c ∈ scanActions fs) :
    ∃ entry ∈ fs.entries, ∃ f ∈ entry.connectorFiles,
      strEndsWith f.name ".py" = true ∧
      c.actionName = some entry.name ∧
      c.connectorName = some (stripLast3 f.name) ∧
      c.type = (if stripLast3 f.name = "default" then entry.name
                else entry.name ++ "_" ++ stripLast3 f.name) := by
  unfold scanActions at hc
  split at hc
  · exact absurd hc (List.not_mem_nil c)
  · obtain ⟨entry, hentry, hc⟩ := List.mem_flatMap.mp hc
    refine ⟨entry, hentry, ?_⟩
    split at hc
    · exact absurd hc (List.not_mem_nil c)
    · split at hc
      · exact absurd hc (List.not_mem_nil c)
      · obtain ⟨f, hf, hc⟩ := List.mem_flatMap.mp hc
        rw [pyFiles] at hf
        obtain ⟨hf1, hf2⟩ := List.mem_filter.mp hf
        rw [Bool.and_eq_true] at hf2
        refine ⟨f, hf1, hf2.1, ?_⟩
        cases hp : f.parse with
        | error e =>
          rw [hp] at hc
          exact absurd hc (List.not_mem_nil c)
        | ok tree =>
          rw [hp] at hc
          obtain ⟨node, hnode, hsome⟩ := List.mem_filterMap.mp hc
          cases node with
          | classDefStmt cn bases body =>
            by_cases hext : extendsConnector bases = true
            · simp only [hext, if_true] at hsome
              injection hsome with h
              rw [← h]
              refine ⟨rfl, rfl, ?_⟩
              by_cases hd : stripLast3 f.name = "default" <;> simp [hd]
            · simp [hext] at hsome
          | functionDef n a b => exact Option.noConfusion hsome
          | asyncFunctionDef n a b => exact Option.noConfusion hsome
          | annAssign t an v => exact Option.noConfusion hsome
          | exprStmt e => exact Option.noConfusion hsome
          | otherStmt => exact Option.noConfusion hsome

/-- Witness for C5 at the spec's example: directory `speak` with
connector files `default.py` and `ros2.py` yields type names `speak`
and `speak_ros2`. -/
theorem action_type_name_witness :
    (scanActions speakFS).map Component.type = ["speak", "speak_ros2"] ∧
    (∃ entry ∈ speakFS.entries, ∃ f ∈ entry.connectorFiles,
      strEndsWith f.name ".py" = true ∧
      speakRos2Component.actionName = some entry.name ∧
      speakRos2Component.connectorName = some (stripLast3 f.name) ∧
      speakRos2Component.type = (if stripLast3 f.name = "default" then entry.name
                else entry.name ++ "_" ++ stripLast3 f.name)) :=
  ⟨by decide, action_type_name speakFS speakRos2Component (by decide)⟩

/-! ### C8 — per-file errors are isolated and logged -/

/-- Removing or keeping a parse-failing file does not change a
`flatMap`-style per-file scan that skips files on `Except.error`. -/
theorem flatMap_parse_error_skip {α : Type} (h : PyFile → List Stmt → List α)
    (pre post : List PyFile) (nm msg : String) :
    ((pyFiles (pre ++ ⟨nm, .error msg⟩ :: post)).flatMap fun f =>
        match f.parse with
        | .error _ => []
        | .ok tree => h f tree)
      = ((pyFiles (pre ++ post)).flatMap fun f =>
        match f.parse with
        | .error _ => []
        | .ok tree => h f tree) := by
  by_cases hcond : (strEndsWith nm ".py" && nm != "__init__.py") = true <;>
    simp [pyFiles, List.filter_append, List.filter_cons, hcond, List.flatMap_append]

/-- C8: a file whose parse signals an error contributes nothing — the
plugin, model-backend and hook scans over a listing containing the
failing file equal the scans with it absent — and when the failing file
is an eligible `.py` file the scan's log contains a message naming it
and the error detail. -/
theorem per_file_error_isolated (dx dx2 dx3 : Bool)
    (pre post pre2 post2 pre3 post3 : List PyFile) (nm msg : String)
    (bs : List String) (cat : String)
    (cf : Option (Except String (List Stmt))) :
    scanPlugins ⟨dx, pre ++ ⟨nm, .error msg⟩ :: post⟩ bs cat
        = scanPlugins ⟨dx, pre ++ post⟩ bs cat ∧
    scanLlms ⟨dx2, cf, pre2 ++ ⟨nm, .error msg⟩ :: post2⟩
        = scanLlms ⟨dx2, cf, pre2 ++ post2⟩ ∧
    scanHooks ⟨dx3, pre3 ++ ⟨nm, .error msg⟩ :: post3⟩
        = scanHooks ⟨dx3, pre3 ++ post3⟩ ∧
    (strEndsWith nm ".py" = true → nm ≠ "__init__.py" →
      ("Error parsing " ++ nm ++ ": " ++ msg)
        ∈ scanPluginsErrors ⟨true, pre ++ ⟨nm, .error msg⟩ :: post⟩) := by
  refine ⟨?_, ?_, ?_, ?_⟩
  · cases dx
    · rfl
    · simp only [scanPlugins, Bool.not_true, Bool.false_eq_true, if_false]
      exact flatMap_parse_error_skip _ pre post nm msg
  · cases dx2
    · rfl
    · simp only [scanLlms, Bool.not_true, Bool.false_eq_true, if_false]
      exact flatMap_parse_error_skip _ pre2 post2 nm msg
  · cases dx3
    · rfl
    · by_cases hcond : (strEndsWith nm ".py" && nm != "__init__.py") = true <;>
        simp [scanHooks, pyFiles, List.filter_append, List.filter_cons, hcond,
          List.filterMap_append, hookEntry]
  · intro h1 h2
    refine List.mem_filterMap.mpr ⟨⟨nm, .error msg⟩, ?_, rfl⟩
    refine List.mem_filter.mpr ⟨by simp, ?_⟩
    rw [Bool.and_eq_true]
    exact ⟨h1, by simpa using h2⟩

/-- Witness for C8: a failing `bad.py` next to a healthy `ok.py` leaves
the scan result unchanged and is logged with its identity. -/
theorem per_file_error_isolated_witness :
    scanPlugins ⟨true, [⟨"bad.py", .error "boom"⟩, ⟨"ok.py", .ok []⟩]⟩
        ["Background"] "background"
      = scanPlugins ⟨true, [⟨"ok.py", .ok []⟩]⟩ ["Background"] "background" ∧
    ("Error parsing bad.py: boom")
      ∈ scanPluginsErrors ⟨true, [⟨"bad.py", .error "boom"⟩, ⟨"ok.py", .ok []⟩]⟩ := by
  have h := per_file_error_isolated true true true
    [] [⟨"ok.py", .ok []⟩] [] [] [] [] "bad.py" "boom" ["Background"] "background" none
  exact ⟨h.1, h.2.2.2 (by decide) (by decide)⟩

/-! ### C1 — name-keyed collapse of field descriptors -/

/-- `fieldNames` distributes over cons. -/
theorem fieldNames_cons (x : Field) (xs : List Field) :
    fieldNames (x :: xs) = x.name :: fieldNames xs := rfl

/-- Updating an existing key leaves the name sequence unchanged;
inserting a new key appends its name. -/
theorem fieldNames_upsert (m : List Field) (f : Field) :
    fieldNames (upsert m f) =
      if m.any (fun g => g.name == f.name) then fieldNames m
      else fieldNames m ++ [f.name] := by
  unfold upsert
  split
  case isTrue h =>
    simp only [fieldNames, List.map_map]
    refine List.map_congr_left ?_
    intro g hg
    by_cases hb : g.name = f.name
    · simp [Function.comp, hb]
    · simp [Function.comp, hb]
  case isFalse h => simp [fieldNames]

/-- `upsert` preserves distinctness of names. -/
theorem nodup_fieldNames_upsert (m : List Field) (f : Field)
    (h : (fieldNames m).Nodup) : (fieldNames (upsert m f)).Nodup := by
  rw [fieldNames_upsert]
  split
  · exact h
  case isFalse hne =>
    have hnotin : f.name ∉ fieldNames m := by
      intro hmem
      apply hne
      obtain ⟨g, hg, hgn⟩ := List.mem_map.mp hmem
      exact List.any_eq_true.mpr ⟨g, hg, by simp [hgn]⟩
    simp [List.nodup_append, h, hnotin]

/-- A member of `upsert m f` is `f` itself or an untouched member of
`m` with a different name. -/
theorem mem_upsert (m : List Field) (f g : Field) (hg : g ∈ upsert m f) :
    g = f ∨ (g ∈ m ∧ g.name ≠ f.name) := by
  unfold upsert at hg
  split at hg
  case isTrue h =>
    obtain ⟨g0, hg0, heq⟩ := List.mem_map.mp hg
    by_cases hb : g0.name = f.name
    · left
      rw [← heq]
      simp [hb]
    · have hgg : g = g0 := by rw [← heq]; simp [hb]
      subst hgg
      exact Or.inr ⟨hg0, hb⟩
  case isFalse h =>
    rcases List.mem_append.mp hg with hgm | hgf
    · refine Or.inr ⟨hgm, ?_⟩
      intro hEq
      apply h
      exact List.any_eq_true.mpr ⟨g, hgm, by simp [hEq]⟩
    · left
      simpa using hgf

/-- Every member of a left fold of `upsert` is the last contributed
descriptor bearing its name, unless no contributed descriptor bears its
name and it already sat in the accumulator. -/
theorem foldl_upsert_find (l : List Field) :
    ∀ (acc : List Field), ∀ f ∈ l.foldl upsert acc,
      l.reverse.find? (fun g => g.name == f.name) = some f ∨
      ((∀ g ∈ l, g.name ≠ f.name) ∧ f ∈ acc) := by
  induction l with
  | nil =>
    intro acc f hf
    exact Or.inr ⟨fun g hg => absurd hg (List.not_mem_nil g), hf⟩
  | cons x xs ih =>
    intro acc f hf
    rw [List.foldl_cons] at hf
    rcases ih (upsert acc x) f hf with hfind | ⟨hnone, hmem⟩
    · left
      rw [List.reverse_cons, List.find?_append, hfind]
      rfl
    · rcases mem_upsert acc x f hmem with rfl | ⟨hacc, hne⟩
      · left
        have hxs : xs.reverse.find? (fun g => g.name == f.name) = none := by
          rw [List.find?_eq_none]
          intro g hg
          simp [hnone g (List.mem_reverse.mp hg)]
        rw [List.reverse_cons, List.find?_append, hxs]
        simp
      · refine Or.inr ⟨?_, hacc⟩
        intro g hg
        rcases List.mem_cons.mp hg with rfl | hg'
        · exact fun hEq => hne hEq.symm
        · exact hnone g hg'

/-- The names reachable after a left fold of `upsert` are exactly the
accumulator's names together with the contributed names. -/
theorem foldl_upsert_names (l : List Field) :
    ∀ (acc : List Field) (n : String),
      n ∈ fieldNames (l.foldl upsert acc) ↔
        n ∈ fieldNames acc ∨ n ∈ fieldNames l := by
  induction l with
  | nil => intro acc n; simp [fieldNames]
  | cons x xs ih =>
    intro acc n
    rw [List.foldl_cons, ih (upsert acc x) n, fieldNames_upsert]
    split
    case isTrue h =>
      have hx : x.name ∈ fieldNames acc := by
        obtain ⟨g, hg, hgn⟩ := List.any_eq_true.mp h
        exact List.mem_map.mpr ⟨g, hg, by simpa using hgn⟩
      rw [fieldNames_cons, List.mem_cons]
      constructor
      · rintro (h' | h')
        · exact Or.inl h'
        · exact Or.inr (Or.inr h')
      · rintro (h' | rfl | h')
        · exact Or.inl h'
        · exact Or.inl hx
        · exact Or.inr h'
    case isFalse h =>
      rw [fieldNames_cons, List.mem_cons, List.mem_append, List.mem_singleton]
      tauto

/-- The fold of `upsert` keeps names pairwise distinct. -/
theorem foldl_upsert_nodup (l : List Field) :
    ∀ acc, (fieldNames acc).Nodup → (fieldNames (l.foldl upsert acc)).Nodup := by
  induction l with
  | nil => intro acc h; exact h
  | cons x xs ih => intro acc h; exact ih _ (nodup_fieldNames_upsert acc x h)

/-- C1 (amended): the raw Initializer Field Extractor keeps one
descriptor per accepted call, duplicates included; the name-keyed
collapse happens in the LLM category's merge, whose result has pairwise
distinct names, whose every member is the last contributed descriptor
(base fields first, then extracted fields in walk order) bearing its
name, and which covers a name iff some contributed descriptor bears
it. -/
theorem llm_merge_keyed_by_name (base extracted : List Field) :
    (fieldNames (mergeFields base extracted)).Nodup ∧
    (∀ f ∈ mergeFields base extracted,
      (base ++ extracted).reverse.find? (fun g => g.name == f.name) = some f) ∧
    (∀ n, n ∈ fieldNames (mergeFields base extracted) ↔
      n ∈ fieldNames (base ++ extracted)) := by
  refine ⟨?_, ?_, ?_⟩
  · exact foldl_upsert_nodup _ [] List.nodup_nil
  · intro f hf
    rcases foldl_upsert_find (base ++ extracted) [] f hf with h | ⟨_, hmem⟩
    · exact h
    · exact absurd hmem (List.not_mem_nil f)
  · intro n
    rw [mergeFields, foldl_upsert_names (base ++ extracted) [] n]
    simp [fieldNames]

/-- Witness for C1's amended statement on concrete base and extracted
lists: the merge overrides `"b"` in place, appends `"c"`, and the kept
`"b"` descriptor is the last contributed one. -/
theorem llm_merge_keyed_by_name_witness :
    mergeFields mergeBaseEx mergeExtractedEx
      = [⟨"a", "string", "A", false, none⟩,
         ⟨"b", "number", "B", true, some (.intV 1)⟩,
         ⟨"c", "string", "C", false, none⟩] ∧
    (mergeBaseEx ++ mergeExtractedEx).reverse.find?
        (fun g => g.name == (⟨"b", "number", "B", true,
          some (.intV 1)⟩ : Field).name)
      = some ⟨"b", "number", "B", true, some (.intV 1)⟩ :=
  ⟨by decide, (llm_merge_keyed_by_name mergeBaseEx mergeExtractedEx).2.1
    ⟨"b", "number", "B", true, some (.intV 1)⟩ (by decide)⟩

/-- Counterexample to C1 as stated: a constructor reading the key
`"x"` twice makes the Initializer Field Extractor emit two descriptors
named `"x"` — and they reach a scan's output unmerged (here the input
category) — so the extractor's result does not contain exactly one
descriptor for that name. -/
theorem extractor_duplicates_counterexample :
    fieldNames (parseGetattr dupInit) = ["x", "x"] ∧
    (scanPlugins ⟨true,
        [⟨"a.py", .ok [.classDefStmt "A" [.name "FuserInput"] dupInit]⟩]⟩
        ["FuserInput", "Sensor"] "input").map Component.fields
      = [[⟨"x", "number", "X", true, some (.intV 1)⟩,
          ⟨"x", "number", "X", true, some (.intV 2)⟩]] := by
  decide

end OM1
